import Mathlib

/-!
Verification of the orchestration core of the `agent-framework-philosophy`
samples.

The development shallowly embeds the three Python sample files:

* `samples/agentscope/main.py` — the message-bus model (`Msg`,
  `MessageBus.register`/`MessageBus.send`, `BaseAgent.receive`, and the three
  concrete agent variants `CoordinatorAgent`, `PlaceExpertAgent`,
  `ScheduleExpertAgent`);
* `samples/langgraph/main.py` — the graph model
  (`MockCompiledGraph.invoke` with `nodes`, `edges`, `conditional_edges`,
  `entry_point`);
* `samples/agentscope-with-otel/main.py` — a traced variant of the bus whose
  `receive`/`send` have the same state semantics (spans are an injected
  observer and carry no state relevant here).

Python dictionaries are embedded as insertion-ordered association lists,
Python exceptions as `Except String`, and Python's nondeterministic
`uuid`/timestamp generation as explicit string parameters.  Python object
mutation relevant to the frame claim about `invoke` is embedded by an
explicit heap of list cells.
-/

/-- Embedding of the Python values that occur as `Msg.content` payloads in
`samples/agentscope/main.py`: strings, ints (`len(...)`), lists, and
(insertion-ordered) string-keyed dicts. -/
inductive JValue where
  | str (s : String)
  | num (n : Nat)
  | list (xs : List JValue)
  | dict (fields : List (String × JValue))

mutual

/-- Structural (Python `==`) equality test on payload values. -/
def JValue.decEq : (a b : JValue) → Decidable (a = b)
  | .str a, .str b =>
    if h : a = b then .isTrue (by rw [h]) else .isFalse (by simp [h])
  | .num a, .num b =>
    if h : a = b then .isTrue (by rw [h]) else .isFalse (by simp [h])
  | .list xs, .list ys =>
    match JValue.decEqList xs ys with
    | .isTrue h => .isTrue (by rw [h])
    | .isFalse h => .isFalse (by simp [h])
  | .dict xs, .dict ys =>
    match JValue.decEqFields xs ys with
    | .isTrue h => .isTrue (by rw [h])
    | .isFalse h => .isFalse (by simp [h])
  | .str _, .num _ => .isFalse nofun
  | .str _, .list _ => .isFalse nofun
  | .str _, .dict _ => .isFalse nofun
  | .num _, .str _ => .isFalse nofun
  | .num _, .list _ => .isFalse nofun
  | .num _, .dict _ => .isFalse nofun
  | .list _, .str _ => .isFalse nofun
  | .list _, .num _ => .isFalse nofun
  | .list _, .dict _ => .isFalse nofun
  | .dict _, .str _ => .isFalse nofun
  | .dict _, .num _ => .isFalse nofun
  | .dict _, .list _ => .isFalse nofun

/-- Equality test on lists of payload values. -/
def JValue.decEqList : (xs ys : List JValue) → Decidable (xs = ys)
  | [], [] => .isTrue rfl
  | [], _ :: _ => .isFalse nofun
  | _ :: _, [] => .isFalse nofun
  | x :: xs, y :: ys =>
    match JValue.decEq x y, JValue.decEqList xs ys with
    | .isTrue h1, .isTrue h2 => .isTrue (by rw [h1, h2])
    | .isFalse h1, _ => .isFalse (by simp [h1])
    | _, .isFalse h2 => .isFalse (by simp [h2])

/-- Equality test on dict field lists. -/
def JValue.decEqFields : (xs ys : List (String × JValue)) → Decidable (xs = ys)
  | [], [] => .isTrue rfl
  | [], _ :: _ => .isFalse nofun
  | _ :: _, [] => .isFalse nofun
  | (k, x) :: xs, (l, y) :: ys =>
    if hk : k = l then
      match JValue.decEq x y, JValue.decEqFields xs ys with
      | .isTrue h1, .isTrue h2 => .isTrue (by rw [hk, h1, h2])
      | .isFalse h1, _ => .isFalse (by simp [h1])
      | _, .isFalse h2 => .isFalse (by simp [h2])
    else .isFalse (by simp [hk])

end

instance : DecidableEq JValue := JValue.decEq

/-- Embedding of the `Msg` dataclass of `samples/agentscope/main.py`.
`to = none` is the broadcast sentinel.  The `id` and `timestamp` fields are
generated by `uuid`/`datetime` factories at construction in Python; the
embedding carries them as explicit data.  Python `==` on the dataclass
compares all fields, which the derived `DecidableEq` mirrors. -/
structure Msg where
  name : String
  content : JValue
  role : String
  «to» : Option String
  id : String
  timestamp : String
deriving DecidableEq

/-- Embedding of a registered agent of `samples/agentscope/main.py`: the
`name` registry key, the private `memory` history, and the pluggable
`_process` behavior.  `_process` is given the agent's memory as updated by
`receive` (Python `_process` may read `self.memory`, which at that point
already contains the inbound message) and the inbound message; a Python
exception raised by the computation is an `Except.error`. -/
structure Agent where
  name : String
  memory : List Msg
  process : List Msg → Msg → Except String (Option Msg)

/-- `BaseAgent.receive` (`samples/agentscope/main.py`, lines 151-158; the
traced variant `TracedAgent.receive` in `samples/agentscope-with-otel/main.py`
has the same state semantics): append the inbound message to `memory`, then
run `_process`; its result — response or exception — is passed through
unchanged, and the memory append stays in place either way. -/
def Agent.receive (a : Agent) (msg : Msg) : Agent × Except String (Option Msg) :=
  let mem := a.memory ++ [msg]
  ({ a with memory := mem }, a.process mem msg)

/-- Embedding of the `MessageBus` state of `samples/agentscope/main.py`:
the `messages` log and the `agents` registry.  The registry is a Python
dict keyed by agent name; it is embedded as its insertion-ordered list of
agents (the key of an entry is the agent's `name`). -/
structure MessageBus where
  messages : List Msg
  agents : List Agent

/-- `MessageBus.register`: Python `self.agents[agent.name] = agent`
overwrites in place when the name is already a key, otherwise appends. -/
def MessageBus.register (bus : MessageBus) (a : Agent) : MessageBus :=
  if bus.agents.any (fun b => b.name == a.name) then
    { bus with agents := bus.agents.map (fun b => if b.name == a.name then a else b) }
  else
    { bus with agents := bus.agents ++ [a] }

/-- Step 1 of `MessageBus.send`: `if msg not in self.messages:
self.messages.append(msg)` — the sent message is appended unless an equal
(all fields, Python `==`) message is already in the log. -/
def MessageBus.logIfAbsent (messages : List Msg) (msg : Msg) : List Msg :=
  if msg ∈ messages then messages else messages ++ [msg]

/-- The broadcast loop of `MessageBus.send` (`for name, agent in
self.agents.items(): if name != msg.name: ...`): visit the registry in
order, skip the agent whose registry key equals the sender, deliver via
`receive`, collect non-`None` responses in visit order.  A raised exception
aborts the loop at once: the returned flag is the pending exception, the
remaining agents are left unvisited, and only the responses collected
before the exception are kept (they have already been appended to the
log by the time Python's exception propagates). -/
def MessageBus.broadcast (msg : Msg) : List Agent → List Agent × List Msg × Option String
  | [] => ([], [], none)
  | a :: rest =>
    if a.name == msg.name then
      let (rest', rs, err) := MessageBus.broadcast msg rest
      (a :: rest', rs, err)
    else
      let p := a.receive msg
      match p.2 with
      | .error e => (p.1 :: rest, [], some e)
      | .ok none =>
        let (rest', rs, err) := MessageBus.broadcast msg rest
        (p.1 :: rest', rs, err)
      | .ok (some r) =>
        let (rest', rs, err) := MessageBus.broadcast msg rest
        (p.1 :: rest', r :: rs, err)

/-- `MessageBus.send` (`samples/agentscope/main.py`, lines 89-128).  Returns
the bus state as left behind by the Python call (its mutations persist even
when an exception propagates) together with either the response list or the
propagated exception.  Debug printing is I/O and is not part of the state.

* The sent message is appended to the log unless already present (Python
  `==` over all fields).
* Direct send (`if msg.to:` truthy, i.e. a non-empty name): deliver to the
  registered agent of that name if any (`msg.to in self.agents`), appending
  a produced response to the log and returning it; an unregistered name is
  a silent no-op.
* Broadcast (`msg.to` is `None` — or the falsy empty string): deliver to
  every registered agent except the one keyed by `msg.name`, in registry
  order, appending each produced response to the log; an exception aborts
  the remaining deliveries. -/
def MessageBus.send (bus : MessageBus) (msg : Msg) : MessageBus × Except String (List Msg) :=
  let msgs0 := MessageBus.logIfAbsent bus.messages msg
  let bcast :=
    let r := MessageBus.broadcast msg bus.agents
    (({ messages := msgs0 ++ r.2.1, agents := r.1 } : MessageBus),
     match r.2.2 with
     | none => (Except.ok r.2.1 : Except String (List Msg))
     | some e => .error e)
  match msg.«to» with
  | some t =>
    if t = "" then bcast
    else
      match bus.agents.find? (fun a => a.name == t) with
      | none => ({ messages := msgs0, agents := bus.agents }, .ok [])
      | some a =>
        let p := a.receive msg
        let agents' := bus.agents.map (fun b => if b.name == t then p.1 else b)
        match p.2 with
        | .error e => ({ messages := msgs0, agents := agents' }, .error e)
        | .ok none => ({ messages := msgs0, agents := agents' }, .ok [])
        | .ok (some r) => ({ messages := msgs0 ++ [r], agents := agents' }, .ok [r])
  | none => bcast

/-- A bus with no traffic and no registered agents, as built by
`MessageBus.__init__`. -/
def MessageBus.empty : MessageBus := ⟨[], []⟩

/-- One client operation on the bus: registering a freshly constructed
agent (`BaseAgent.__init__` always starts with `memory = []`) or sending a
message. -/
inductive BusOp where
  | register (name : String) (process : List Msg → Msg → Except String (Option Msg))
  | send (msg : Msg)

/-- Apply one operation to the bus state (a send's responses and exception
status are not part of the state). -/
def BusOp.apply (bus : MessageBus) : BusOp → MessageBus
  | .register n p => bus.register ⟨n, [], p⟩
  | .send m => (bus.send m).1

/-- Run a sequence of client operations. -/
def MessageBus.runOps (bus : MessageBus) (ops : List BusOp) : MessageBus :=
  ops.foldl BusOp.apply bus

/-- Python `fields.get(k)` / `fields[k]` lookup on an (insertion-ordered,
duplicate-key-free) dict, returning `none` when the key is missing. -/
def pyDictGet (fields : List (String × JValue)) (k : String) : Option JValue :=
  (fields.find? (fun p => p.1 == k)).map Prod.snd

/-- Python `c.get(k, d)`: defined for dicts; on a string, list or int the
attribute access raises (`AttributeError`). -/
def contentGet (c : JValue) (k : String) (d : JValue) : Except String JValue :=
  match c with
  | .dict fs => .ok ((pyDictGet fs k).getD d)
  | _ => .error "AttributeError: no attribute get"

/-- Substring test, Python `sub in hay` for strings. -/
def strContains (hay sub : String) : Bool :=
  hay.toList.tails.any (fun t => sub.toList.isPrefixOf t)

/-- Python `x in c`: element test on a list, key test on a dict, substring
test on a string (only for string `x`), `TypeError` on an int. -/
def pyIn (x : JValue) (c : JValue) : Except String Bool :=
  match c with
  | .list xs => .ok (xs.contains x)
  | .dict fs =>
    match x with
    | .str s => .ok (fs.any (fun p => p.1 == s))
    | _ => .ok false
  | .str s =>
    match x with
    | .str sub => .ok (strContains s sub)
    | _ => .error "TypeError: in <string> requires string as left operand"
  | .num _ => .error "TypeError: argument of type int is not iterable"

/-- Python `len(c)`: defined for strings, lists and dicts; `TypeError` on an
int. -/
def pyLen (c : JValue) : Except String Nat :=
  match c with
  | .str s => .ok s.length
  | .list xs => .ok xs.length
  | .dict fs => .ok fs.length
  | .num _ => .error "TypeError: object of type int has no len"

/-- The payload the Coordinator sends to the PlaceExpert on a user request
(`samples/agentscope/main.py`, lines 190-205). -/
def requestPlacesContent : JValue :=
  .dict [("action", .str "request_places"),
         ("requirements", .dict [
            ("destination", .str "부산"),
            ("duration", .str "1박 2일"),
            ("style", .str "혼자 여행"),
            ("preferences", .list [.str "조용한 카페", .str "전시"]),
            ("constraints", .list [.str "혼밥 가능", .str "이동 동선 최소화"])]),
         ("instruction", .str "요구사항에 맞는 장소들을 추천해주세요")]

/-- `CoordinatorAgent._process` (`samples/agentscope/main.py`, lines
186-232).  Dispatch: a `user` role message starts the flow, a message from
`PlaceExpert` is forwarded to the `ScheduleExpert`, a message from
`ScheduleExpert` produces the final broadcast; anything else returns
`None`.  The `self.state` writes in the source never influence any observable
output (no code path reads `self.state`), so they are not part of the
embedding.  The response's generated `id`/`timestamp` are the `freshId` /
`freshTs` parameters.  In the `PlaceExpert`/`ScheduleExpert` branches the
source calls `msg.content.get(...)`, which raises when the content is not a
dict. -/
def coordinatorProcess (freshId freshTs : String) (msg : Msg) : Except String (Option Msg) :=
  if msg.role == "user" then
    .ok (some ⟨"Coordinator", requestPlacesContent, "assistant", some "PlaceExpert",
               freshId, freshTs⟩)
  else if msg.name == "PlaceExpert" then
    match contentGet msg.content "places" (.list []) with
    | .error e => .error e
    | .ok places =>
      .ok (some ⟨"Coordinator",
                 .dict [("action", .str "create_schedule"),
                        ("places", places),
                        ("duration", .str "1박 2일"),
                        ("instruction", .str "이 장소들로 1박 2일 일정을 만들어주세요")],
                 "assistant", some "ScheduleExpert", freshId, freshTs⟩)
  else if msg.name == "ScheduleExpert" then
    match contentGet msg.content "schedule" (.dict []) with
    | .error e => .error e
    | .ok schedule =>
      .ok (some ⟨"Coordinator",
                 .dict [("action", .str "final_result"),
                        ("schedule", schedule),
                        ("summary", .str "일정 생성이 완료되었습니다")],
                 "assistant", none, freshId, freshTs⟩)
  else
    .ok none

/-- The `PlaceExpertAgent.PLACES["cafe"]` mock table. -/
def placesCafe : List JValue :=
  [.dict [("name", .str "모모스커피"), ("area", .str "전포동"),
          ("features", .list [.str "조용함", .str "혼자 작업 좋음"])],
   .dict [("name", .str "테라로사"), ("area", .str "해운대"),
          ("features", .list [.str "넓음", .str "바다 근처"])]]

/-- The `PlaceExpertAgent.PLACES["exhibition"]` mock table. -/
def placesExhibition : List JValue :=
  [.dict [("name", .str "F1963"), ("area", .str "수영"),
          ("features", .list [.str "복합문화공간", .str "전시+서점"])],
   .dict [("name", .str "부산시립미술관"), ("area", .str "해운대"),
          ("features", .list [.str "무료", .str "기획전시"])]]

/-- The `PlaceExpertAgent.PLACES["restaurant"]` mock table. -/
def placesRestaurant : List JValue :=
  [.dict [("name", .str "밀양순대국"), ("area", .str "부전동"),
          ("features", .list [.str "혼밥 가능", .str "현지 맛집"])]]

/-- `PlaceExpertAgent._process` (`samples/agentscope/main.py`, lines
265-292): responds only to a dict content whose `action` is
`"request_places"`; otherwise returns `None`.  The recommended list extends
with the cafe table when `"조용한 카페"` is among the preferences, with the
exhibition table when `"전시"` is, and always with the restaurant table. -/
def placeExpertProcess (freshId freshTs : String) (msg : Msg) : Except String (Option Msg) :=
  match msg.content with
  | .dict fs =>
    if pyDictGet fs "action" == some (.str "request_places") then
      let requirements := (pyDictGet fs "requirements").getD (.dict [])
      match contentGet requirements "preferences" (.list []) with
      | .error e => .error e
      | .ok preferences =>
        match pyIn (.str "조용한 카페") preferences with
        | .error e => .error e
        | .ok wantsCafe =>
          match pyIn (.str "전시") preferences with
          | .error e => .error e
          | .ok wantsExhibition =>
            let recommended :=
              (if wantsCafe then placesCafe else []) ++
              (if wantsExhibition then placesExhibition else []) ++
              placesRestaurant
            .ok (some ⟨"PlaceExpert",
                       .dict [("action", .str "places_response"),
                              ("places", .list recommended),
                              ("reasoning", .str "혼자 여행에 적합하고 조용한 장소들을 선정했습니다")],
                       "assistant", some "Coordinator", freshId, freshTs⟩)
    else .ok none
  | _ => .ok none

/-- The constant schedule built by `ScheduleExpertAgent._process`
(`samples/agentscope/main.py`, lines 316-362). -/
def mockSchedule : JValue :=
  .dict [("day1", .dict [
            ("theme", .str "전포동/수영 권역"),
            ("items", .list [
              .dict [("time", .str "10:00"), ("place", .str "모모스커피"),
                     ("area", .str "전포동"), ("reason", .str "조용한 카페에서 여행 시작")],
              .dict [("time", .str "14:00"), ("place", .str "F1963"),
                     ("area", .str "수영"), ("reason", .str "전시 관람 및 복합문화공간 탐방")],
              .dict [("time", .str "18:00"), ("place", .str "밀양순대국"),
                     ("area", .str "부전동"), ("reason", .str "현지 맛집에서 혼밥")]])]),
         ("day2", .dict [
            ("theme", .str "해운대 권역"),
            ("items", .list [
              .dict [("time", .str "09:00"), ("place", .str "테라로사"),
                     ("area", .str "해운대"), ("reason", .str "바다 근처 카페에서 여유로운 아침")],
              .dict [("time", .str "11:00"), ("place", .str "해운대 해변 산책"),
                     ("area", .str "해운대"), ("reason", .str "체크아웃 후 가벼운 마무리")]])]),
         ("optimization_notes", .list [
            .str "권역별 분리로 이동 시간 최소화",
            .str "혼자 여행에 적합한 장소만 선정",
            .str "여유로운 시간 배분"])]

/-- `ScheduleExpertAgent._process` (`samples/agentscope/main.py`, lines
311-374): responds only to a dict content whose `action` is
`"create_schedule"`; otherwise returns `None`. -/
def scheduleExpertProcess (freshId freshTs : String) (msg : Msg) : Except String (Option Msg) :=
  match msg.content with
  | .dict fs =>
    if pyDictGet fs "action" == some (.str "create_schedule") then
      let places := (pyDictGet fs "places").getD (.list [])
      match pyLen places with
      | .error e => .error e
      | .ok total =>
        .ok (some ⟨"ScheduleExpert",
                   .dict [("action", .str "schedule_response"),
                          ("schedule", mockSchedule),
                          ("total_places", .num total)],
                   "assistant", some "Coordinator", freshId, freshTs⟩)
    else .ok none
  | _ => .ok none

/-- `content.get("action") == a` as the dispatch guard of the two expert
agents: only dict contents can match. -/
def hasAction (c : JValue) (a : String) : Bool :=
  match c with
  | .dict fs => pyDictGet fs "action" == some (.str a)
  | _ => false

/-- The three participant variants of `samples/agentscope/main.py`. -/
inductive Variant where
  | coordinator
  | placeExpert
  | scheduleExpert

/-- The registration name of each variant (set in each `__init__`). -/
def Variant.agentName : Variant → String
  | .coordinator => "Coordinator"
  | .placeExpert => "PlaceExpert"
  | .scheduleExpert => "ScheduleExpert"

/-- The `_process` implementation of each variant. -/
def Variant.proc : Variant → String → String → Msg → Except String (Option Msg)
  | .coordinator => coordinatorProcess
  | .placeExpert => placeExpertProcess
  | .scheduleExpert => scheduleExpertProcess

/-- Whether a variant's `_process` dispatch recognizes the envelope: the
Coordinator matches on `msg.role == "user"` or the sender name being one of
the two experts; each expert matches on its dict `action` tag. -/
def Variant.recognizes : Variant → Msg → Bool
  | .coordinator, msg =>
    msg.role == "user" || msg.name == "PlaceExpert" || msg.name == "ScheduleExpert"
  | .placeExpert, msg => hasAction msg.content "request_places"
  | .scheduleExpert, msg => hasAction msg.content "create_schedule"

/-- The registered agent for a variant, with the generated-id supply fixed
and a given received history. -/
def Variant.mkAgent (v : Variant) (freshId freshTs : String) (mem : List Msg) : Agent :=
  ⟨v.agentName, mem, fun _ m => v.proc freshId freshTs m⟩

/-- Python dict lookup `d.get(key)` on an insertion-ordered association
list (first — and in a real dict only — binding of the key). -/
def pyGet? {V : Type} : List (String × V) → String → Option V
  | [], _ => none
  | (k, v) :: rest, key => if k == key then some v else pyGet? rest key

/-- Python `d[key] = v`: replace the binding in place when the key exists,
otherwise append it. -/
def pySet {V : Type} (d : List (String × V)) (k : String) (v : V) : List (String × V) :=
  if d.any (fun p => p.1 == k) then d.map (fun p => if p.1 == k then (k, v) else p)
  else d ++ [(k, v)]

/-- Python `d.update(u)`: set each binding of `u` in order. -/
def pyUpdate {V : Type} (d u : List (String × V)) : List (String × V) :=
  u.foldl (fun acc p => pySet acc p.1 p.2) d

/-- Embedding of `MockCompiledGraph` (`samples/langgraph/main.py`, lines
394-430), generic in the values stored in the state dict.  `nodes` maps a
step name to its node function (a node receives the current state dict and
returns the partial update to merge), `edges` maps a step name to its fixed
successor (`None`, as for `"format_output"`, marks the end), and
`conditional_edges` maps a step name to a decision function together with a
label-to-successor routing table. -/
structure MockCompiledGraph (V : Type) where
  nodes : List (String × (List (String × V) → List (String × V)))
  edges : List (String × Option String)
  conditional_edges : List (String × ((List (String × V) → String) × List (String × String)))
  entry_point : String

/-- The node-execution half of one `invoke` loop iteration: `if
current_node in self.nodes: result = self.nodes[current_node](state);
state.update(result)` — a name with no node function leaves the state
unchanged. -/
def MockCompiledGraph.stepState {V : Type} (g : MockCompiledGraph V)
    (state : List (String × V)) (cur : String) : List (String × V) :=
  match pyGet? g.nodes cur with
  | some f => pyUpdate state (f state)
  | none => state

/-- The successor-selection half of one `invoke` loop iteration, applied to
the state as already updated by the node: a conditional entry wins over a
fixed edge; its decision label is looked up with `route_map.get(route_key)`,
which yields `None` for an unmapped label; a name in neither table yields
`None`. -/
def MockCompiledGraph.nextNode {V : Type} (g : MockCompiledGraph V)
    (state : List (String × V)) (cur : String) : Option String :=
  match pyGet? g.conditional_edges cur with
  | some rm => pyGet? rm.2 (rm.1 state)
  | none =>
    match pyGet? g.edges cur with
    | some e => e
    | none => none

/-- The `while current_node:` loop of `MockCompiledGraph.invoke`
(`samples/langgraph/main.py`, lines 409-430), with an explicit iteration
budget standing for the unbounded Python loop: `none` means the loop is
still running after `fuel` iterations, `some state` is the function's
return.  Python truthiness ends the loop on `None` and also on the empty
string. -/
def MockCompiledGraph.invokeAux {V : Type} (g : MockCompiledGraph V) :
    Nat → List (String × V) → Option String → Option (List (String × V))
  | _, state, none => some state
  | fuel, state, some s =>
    if s = "" then some state
    else
      match fuel with
      | 0 => none
      | fuel + 1 =>
        let s1 := g.stepState state s
        g.invokeAux fuel s1 (g.nextNode s1 s)

/-- `MockCompiledGraph.invoke(initial_state)`: `state = dict(initial_state)`
copies the caller's dict (in this pure view the value is simply reused),
then the loop runs from `entry_point`. -/
def MockCompiledGraph.invoke {V : Type} (g : MockCompiledGraph V) (fuel : Nat)
    (initial : List (String × V)) : Option (List (String × V)) :=
  g.invokeAux fuel initial (some g.entry_point)

/-- `b` is referenced as a successor of `a` in the edge configuration:
either the fixed edge of `a` names `b`, or the routing table of the
conditional entry of `a` names `b`. -/
def edgeSucc {V : Type} (g : MockCompiledGraph V) (a b : String) : Prop :=
  pyGet? g.edges a = some (some b) ∨
  ∃ rm, pyGet? g.conditional_edges a = some rm ∧ b ∈ rm.2.map Prod.snd

/-- No step name is reachable from itself through fixed or conditional
edges. -/
def AcyclicEdges {V : Type} (g : MockCompiledGraph V) : Prop :=
  ∀ a, ¬ Relation.TransGen (edgeSucc g) a a

/-- Every successor name referenced by an edge table exists in `nodes`
(the well-formedness invariant of the spec's graph tables). -/
def EdgesClosed {V : Type} (g : MockCompiledGraph V) : Prop :=
  ∀ a b, edgeSucc g a b → b ∈ g.nodes.map Prod.fst

/-- Every envelope in any registered agent's history is in the bus log. -/
def histInLog (bus : MessageBus) : Prop :=
  ∀ a ∈ bus.agents, ∀ m ∈ a.memory, m ∈ bus.messages

/-- A heap of Python list objects (cells of flat string lists — the shape
of `execution_log`); a cell index is a Python object reference. -/
abbrev Heap := List (List String)

/-- A Python value as stored in a state dict: an immutable string or a
reference to a mutable list object on the heap. -/
inductive PyVal where
  | str (s : String)
  | ref (i : Nat)
deriving DecidableEq

/-- Dereference one dict value: strings denote themselves, a reference
denotes the current contents of its heap cell (undefined for a dangling
reference). -/
def valueOf (h : Heap) : PyVal → Option (String ⊕ List String)
  | .str s => some (.inl s)
  | .ref i => (h.get? i).map Sum.inr

/-- `MockCompiledGraph` with the identical table layout, but with node and
decision functions that can observe and grow the heap — the explicit-
mutation view of `samples/langgraph/main.py` used for the frame property of
`invoke`.  A node returns the possibly-extended heap and the partial update
dict. -/
structure HGraph where
  nodes : List (String × (Heap → List (String × PyVal) → Heap × List (String × PyVal)))
  edges : List (String × Option String)
  conditional_edges : List (String × ((Heap → List (String × PyVal) → String) × List (String × String)))
  entry_point : String

/-- A node function only allocates: whatever it does, the prior heap is a
prefix of the heap it returns (existing cells are never written or
dropped).  Every node of `samples/langgraph/main.py` has this shape: each
builds its lists fresh (`state.get("execution_log", []) + log` concatenates
into a new list) and never calls a mutating method on a value taken from
the state. -/
def allocOnly (f : Heap → List (String × PyVal) → Heap × List (String × PyVal)) : Prop :=
  ∀ h st, h <+: (f h st).1

/-- Node execution of one loop iteration in the heap view. -/
def HGraph.stepStateH (g : HGraph) (h : Heap) (state : List (String × PyVal))
    (cur : String) : Heap × List (String × PyVal) :=
  match pyGet? g.nodes cur with
  | some f =>
    let r := f h state
    (r.1, pyUpdate state r.2)
  | none => (h, state)

/-- Successor selection of one loop iteration in the heap view. -/
def HGraph.nextNodeH (g : HGraph) (h : Heap) (state : List (String × PyVal))
    (cur : String) : Option String :=
  match pyGet? g.conditional_edges cur with
  | some rm => pyGet? rm.2 (rm.1 h state)
  | none =>
    match pyGet? g.edges cur with
    | some e => e
    | none => none

/-- The `invoke` loop in the heap view. -/
def HGraph.invokeAuxH (g : HGraph) :
    Nat → Heap → List (String × PyVal) → Option String → Option (Heap × List (String × PyVal))
  | _, h, state, none => some (h, state)
  | fuel, h, state, some s =>
    if s = "" then some (h, state)
    else
      match fuel with
      | 0 => none
      | fuel + 1 =>
        let r := g.stepStateH h state s
        g.invokeAuxH fuel r.1 r.2 (g.nextNodeH r.1 r.2 s)

/-- `invoke(initial_state)` in the heap view: `state = dict(initial_state)`
is a shallow copy — a fresh dict holding the same value references — so the
loop starts from the caller's entries, and the caller's own dict object is
never touched afterwards; whether the caller's *values* survive is exactly
the heap-preservation question. -/
def HGraph.invokeH (g : HGraph) (fuel : Nat) (h : Heap)
    (initial : List (String × PyVal)) : Option (Heap × List (String × PyVal)) :=
  g.invokeAuxH fuel h initial (some g.entry_point)

lemma find?_agent_append (pre : List Agent) (a : Agent) (post : List Agent)
    (h : ∀ b ∈ pre, b.name ≠ a.name) :
    (pre ++ a :: post).find? (fun b => b.name == a.name) = some a := by
  induction pre with
  | nil => simp [List.find?]
  | cons b bs ih =>
    have hb : (b.name == a.name) = false := by
      simpa using h b (List.mem_cons_self _ _)
    simpa [List.find?, hb] using ih (fun x hx => h x (List.mem_cons_of_mem _ hx))

lemma send_bcast_eq (bus : MessageBus) (msg : Msg)
    (hbc : msg.«to» = none ∨ msg.«to» = some "") :
    bus.send msg =
      ({ messages := MessageBus.logIfAbsent bus.messages msg ++
           (MessageBus.broadcast msg bus.agents).2.1,
         agents := (MessageBus.broadcast msg bus.agents).1 },
       match (MessageBus.broadcast msg bus.agents).2.2 with
       | none => Except.ok (MessageBus.broadcast msg bus.agents).2.1
       | some e => Except.error e) := by
  rcases hbc with h | h
  · simp only [MessageBus.send, h]
  · simp only [MessageBus.send, h]
    rw [if_pos trivial]

lemma send_direct_eq (bus : MessageBus) (msg : Msg) (t : String) (a : Agent)
    (hto : msg.«to» = some t) (ht : t ≠ "")
    (hfind : bus.agents.find? (fun b => b.name == t) = some a) :
    bus.send msg =
      (match (a.receive msg).2 with
       | .error e =>
         ({ messages := MessageBus.logIfAbsent bus.messages msg,
            agents := bus.agents.map (fun b => if b.name == t then (a.receive msg).1 else b) },
          .error e)
       | .ok none =>
         ({ messages := MessageBus.logIfAbsent bus.messages msg,
            agents := bus.agents.map (fun b => if b.name == t then (a.receive msg).1 else b) },
          .ok [])
       | .ok (some r) =>
         ({ messages := MessageBus.logIfAbsent bus.messages msg ++ [r],
            agents := bus.agents.map (fun b => if b.name == t then (a.receive msg).1 else b) },
          .ok [r])) := by
  simp only [MessageBus.send, hto]
  rw [if_neg ht]
  simp only [hfind]

/-- C9: an envelope addressed to an identity absent from the registry is a
silent no-op at the delivery step: the registry (hence every participant's
history) is untouched, no exception is possible, and the response list is
empty; only the log append of the sent envelope itself happens. -/
theorem send_unroutable_silent_noop (bus : MessageBus) (msg : Msg) (t : String)
    (hto : msg.«to» = some t) (ht : t ≠ "")
    (habs : ∀ a ∈ bus.agents, a.name ≠ t) :
    bus.send msg =
      ({ messages := MessageBus.logIfAbsent bus.messages msg, agents := bus.agents },
       Except.ok []) := by
  have hfind : bus.agents.find? (fun a => a.name == t) = none := by
    rw [List.find?_eq_none]
    intro a ha
    simpa using habs a ha
  simp only [MessageBus.send, hto]
  rw [if_neg ht]
  simp only [hfind]

/-- C9 witness: sending to the unregistered name "Ghost" on an empty bus
returns no responses, raises nothing, and leaves no agent state. -/
theorem send_unroutable_silent_noop_witness :
    MessageBus.empty.send ⟨"U", .str "hi", "user", some "Ghost", "i0", "t0"⟩ =
      ({ messages := [⟨"U", .str "hi", "user", some "Ghost", "i0", "t0"⟩], agents := [] },
       Except.ok []) := by
  have h := send_unroutable_silent_noop MessageBus.empty
    ⟨"U", .str "hi", "user", some "Ghost", "i0", "t0"⟩ "Ghost" rfl (by decide)
    (by intro a ha; simp [MessageBus.empty] at ha)
  rw [h]
  rfl

/-- C5: `receive` appends the inbound envelope to the history before the
response computation runs, and hands the computation's outcome — response
or exception — through unchanged; when the computation raises, `send`
propagates the exception to its caller while the recipient's history, with
the envelope recorded, stays in the bus state. -/
theorem receive_appends_before_compute_and_propagates (a : Agent) (msg : Msg) :
    (a.receive msg).1.memory = a.memory ++ [msg] ∧
    (a.receive msg).2 = a.process (a.memory ++ [msg]) msg ∧
    ∀ (ms : List Msg) (pre post : List Agent) (e : String),
      msg.«to» = some a.name → a.name ≠ "" → (∀ b ∈ pre, b.name ≠ a.name) →
      a.process (a.memory ++ [msg]) msg = .error e →
      (MessageBus.send ⟨ms, pre ++ a :: post⟩ msg).2 = .error e ∧
      ({ a with memory := a.memory ++ [msg] } : Agent) ∈
        (MessageBus.send ⟨ms, pre ++ a :: post⟩ msg).1.agents := by
  refine ⟨rfl, rfl, ?_⟩
  intro ms pre post e hto hname hpre herr
  have hfind : (pre ++ a :: post).find? (fun b => b.name == a.name) = some a :=
    find?_agent_append pre a post hpre
  have hrecv2 : (a.receive msg).2 = .error e := herr
  have hsend := send_direct_eq ⟨ms, pre ++ a :: post⟩ msg a.name a hto hname hfind
  rw [hrecv2] at hsend
  constructor
  · rw [hsend]
  · rw [hsend]
    apply List.mem_map.mpr
    refine ⟨a, List.mem_append_right _ (List.mem_cons_self _ _), ?_⟩
    simp [Agent.receive]

/-- C5 witness: an agent whose computation raises still records the
envelope, and the exception reaches `send`'s caller. -/
theorem receive_appends_before_compute_and_propagates_witness :
    (MessageBus.send ⟨[], [⟨"F", [], fun _ _ => .error "boom"⟩]⟩
        ⟨"U", .str "q", "user", some "F", "i1", "t1"⟩).2 = .error "boom" ∧
    (⟨"F", [⟨"U", .str "q", "user", some "F", "i1", "t1"⟩], fun _ _ => .error "boom"⟩ : Agent) ∈
      (MessageBus.send ⟨[], [⟨"F", [], fun _ _ => .error "boom"⟩]⟩
        ⟨"U", .str "q", "user", some "F", "i1", "t1"⟩).1.agents := by
  have h := (receive_appends_before_compute_and_propagates
      ⟨"F", [], fun _ _ => .error "boom"⟩
      ⟨"U", .str "q", "user", some "F", "i1", "t1"⟩).2.2
      [] [] [] "boom" rfl (by decide) (by intro b hb; simp at hb) rfl
  simpa using h

/-- C1 counterexample: a concrete graph in which the decision function of
step `"a"` returns the label `"weird"`, which is absent from the routing
table `{"known": "b"}`.  `invoke` returns the context normally — the
`route_map.get(route_key)` call yields `None`, the `while current_node:`
loop simply ends, and no error of any kind is raised (the embedded `invoke`
has no error outcome at all: `some` is a normal return); the claimed fatal
configuration error does not exist in the code. -/
theorem unmapped_label_returns_silently_cex :
    MockCompiledGraph.invoke (V := Nat)
      { nodes := [("a", fun _ => [])],
        edges := [("a", some "b")],
        conditional_edges := [("a", (fun _ => "weird", [("known", "b")]))],
        entry_point := "a" }
      5 [("k", 0)] = some [("k", 0)] := by
  rfl

/-- C1 amended: when the current step has a conditional-edge entry and its
decision function (applied to the node-updated context) returns a label
absent from the routing table, `invoke` silently terminates right there: it
returns the node-updated context, takes no default successor, and raises
nothing — in particular any fixed edge of the same step is ignored. -/
theorem unmapped_label_silent_termination {V : Type} (g : MockCompiledGraph V)
    (fuel : Nat) (state : List (String × V)) (s : String)
    (rm : (List (String × V) → String) × List (String × String))
    (hs : s ≠ "")
    (hcond : pyGet? g.conditional_edges s = some rm)
    (hmiss : pyGet? rm.2 (rm.1 (g.stepState state s)) = none) :
    g.invokeAux (fuel + 1) state (some s) = some (g.stepState state s) := by
  have hnext : g.nextNode (g.stepState state s) s = none := by
    simp [MockCompiledGraph.nextNode, hcond, hmiss]
  simp [MockCompiledGraph.invokeAux, hs, hnext]

/-- C1 amended witness: the counterexample graph instantiates the amended
statement. -/
theorem unmapped_label_silent_termination_witness :
    MockCompiledGraph.invokeAux (V := Nat)
      { nodes := [("a", fun _ => [])],
        edges := [("a", some "b")],
        conditional_edges := [("a", (fun _ => "weird", [("known", "b")]))],
        entry_point := "a" }
      5 [("k", 0)] (some "a") = some [("k", 0)] := by
  have h := unmapped_label_silent_termination (V := Nat)
    { nodes := [("a", fun _ => [])],
      edges := [("a", some "b")],
      conditional_edges := [("a", (fun _ => "weird", [("known", "b")]))],
      entry_point := "a" }
    4 [("k", 0)] "a" (fun _ => "weird", [("known", "b")])
    (by decide) rfl rfl
  simpa using h

/-- C7: a conditional-edge entry shadows a fixed edge for the same step
name: when the decision function returns a label the routing table maps to
`Y`, the successor chosen by the engine is `Y` — never the fixed-edge
target `X` when `X` differs — and the run continues at `Y`. -/
theorem conditional_edge_precedence {V : Type} (g : MockCompiledGraph V)
    (fuel : Nat) (state : List (String × V)) (s L Y X : String)
    (rm : (List (String × V) → String) × List (String × String))
    (hs : s ≠ "")
    (hcond : pyGet? g.conditional_edges s = some rm)
    (hlabel : rm.1 (g.stepState state s) = L)
    (hroute : pyGet? rm.2 L = some Y)
    (hfixed : pyGet? g.edges s = some (some X)) :
    g.nextNode (g.stepState state s) s = some Y ∧
    (Y ≠ X → g.nextNode (g.stepState state s) s ≠ some X) ∧
    g.invokeAux (fuel + 1) state (some s) =
      g.invokeAux fuel (g.stepState state s) (some Y) := by
  have hnext : g.nextNode (g.stepState state s) s = some Y := by
    simp [MockCompiledGraph.nextNode, hcond, hlabel, hroute]
  refine ⟨hnext, ?_, ?_⟩
  · intro hne
    rw [hnext]
    simp [hne]
  · simp [MockCompiledGraph.invokeAux, hs, hnext]

/-- C7 witness: a concrete step with both a fixed edge to `"X"` and a
conditional table sending label `"L"` to `"Y"` routes to `"Y"`. -/
theorem conditional_edge_precedence_witness :
    MockCompiledGraph.nextNode (V := Nat)
      { nodes := [("a", fun _ => [])],
        edges := [("a", some "X")],
        conditional_edges := [("a", (fun _ => "L", [("L", "Y")]))],
        entry_point := "a" }
      (MockCompiledGraph.stepState (V := Nat)
        { nodes := [("a", fun _ => [])],
          edges := [("a", some "X")],
          conditional_edges := [("a", (fun _ => "L", [("L", "Y")]))],
          entry_point := "a" } [] "a") "a" = some "Y" := by
  exact (conditional_edge_precedence (V := Nat)
    { nodes := [("a", fun _ => [])],
      edges := [("a", some "X")],
      conditional_edges := [("a", (fun _ => "L", [("L", "Y")]))],
      entry_point := "a" }
    0 [] "a" "L" "Y" "X" (fun _ => "L", [("L", "Y")])
    (by decide) rfl rfl rfl rfl).1

/-- C2: whatever inbound envelope a participant variant does not
recognize (its `_process` dispatch conditions all fail), the computation
returns no response and cannot raise (`Except.ok none`); `receive` then
also yields `.ok none`, and a direct `send` delivering that envelope to the
registered variant returns the empty response list. -/
theorem unrecognized_envelope_yields_no_response
    (v : Variant) (freshId freshTs : String) (msg : Msg) (mem ms : List Msg)
    (pre post : List Agent)
    (hrec : v.recognizes msg = false)
    (hto : msg.«to» = some v.agentName)
    (hpre : ∀ b ∈ pre, b.name ≠ v.agentName) :
    v.proc freshId freshTs msg = .ok none ∧
    ((v.mkAgent freshId freshTs mem).receive msg).2 = .ok none ∧
    (MessageBus.send ⟨ms, pre ++ v.mkAgent freshId freshTs mem :: post⟩ msg).2 =
      .ok [] := by
  have hproc : v.proc freshId freshTs msg = .ok none := by
    cases v with
    | coordinator =>
      simp only [Variant.recognizes, Bool.or_eq_false_iff] at hrec
      obtain ⟨⟨h1, h2⟩, h3⟩ := hrec
      simp [Variant.proc, coordinatorProcess, h1, h2, h3]
    | placeExpert =>
      simp only [Variant.recognizes] at hrec
      cases hc : msg.content with
      | dict fs =>
        rw [hc] at hrec
        simp only [hasAction] at hrec
        simp [Variant.proc, placeExpertProcess, hc, hrec]
      | str s => simp [Variant.proc, placeExpertProcess, hc]
      | num n => simp [Variant.proc, placeExpertProcess, hc]
      | list xs => simp [Variant.proc, placeExpertProcess, hc]
    | scheduleExpert =>
      simp only [Variant.recognizes] at hrec
      cases hc : msg.content with
      | dict fs =>
        rw [hc] at hrec
        simp only [hasAction] at hrec
        simp [Variant.proc, scheduleExpertProcess, hc, hrec]
      | str s => simp [Variant.proc, scheduleExpertProcess, hc]
      | num n => simp [Variant.proc, scheduleExpertProcess, hc]
      | list xs => simp [Variant.proc, scheduleExpertProcess, hc]
  have hrecv : ((v.mkAgent freshId freshTs mem).receive msg).2 = .ok none := by
    simpa [Agent.receive, Variant.mkAgent] using hproc
  refine ⟨hproc, hrecv, ?_⟩
  have hfind : (pre ++ v.mkAgent freshId freshTs mem :: post).find?
      (fun b => b.name == v.agentName) = some (v.mkAgent freshId freshTs mem) :=
    find?_agent_append pre (v.mkAgent freshId freshTs mem) post hpre
  have htn : v.agentName ≠ "" := by cases v <;> decide
  have hsend := send_direct_eq ⟨ms, pre ++ v.mkAgent freshId freshTs mem :: post⟩
    msg v.agentName (v.mkAgent freshId freshTs mem) hto htn hfind
  rw [hrecv] at hsend
  rw [hsend]

/-- C2 witness: a `system`-role envelope from an unknown sender is
unrecognized by the Coordinator; its delivery produces no response and no
exception. -/
theorem unrecognized_envelope_yields_no_response_witness :
    Variant.proc .coordinator "w1" "w2" ⟨"X", .str "hello", "system", some "Coordinator", "i9", "t9"⟩ =
      .ok none ∧
    (MessageBus.send ⟨[], [Variant.mkAgent .coordinator "w1" "w2" []]⟩
        ⟨"X", .str "hello", "system", some "Coordinator", "i9", "t9"⟩).2 = .ok [] := by
  have h := unrecognized_envelope_yields_no_response .coordinator "w1" "w2"
    ⟨"X", .str "hello", "system", some "Coordinator", "i9", "t9"⟩ [] [] [] []
    (by decide) rfl (by intro b hb; simp at hb)
  exact ⟨h.1, h.2.2⟩

lemma send_log_structure_aux (bus : MessageBus) (msg : Msg) :
    ∃ rs : List Msg,
      (bus.send msg).1.messages = MessageBus.logIfAbsent bus.messages msg ++ rs ∧
      (∀ res, (bus.send msg).2 = Except.ok res → rs = res) := by
  by_cases hbc : msg.«to» = none ∨ msg.«to» = some ""
  · rcases hbr : MessageBus.broadcast msg bus.agents with ⟨agents', rs, err⟩
    have hsend := send_bcast_eq bus msg hbc
    rw [hbr] at hsend
    refine ⟨rs, ?_, ?_⟩
    · rw [hsend]
    · intro res h
      rw [hsend] at h
      cases err with
      | none => exact Except.ok.inj h
      | some e => cases h
  · push_neg at hbc
    obtain ⟨hnone, hempty⟩ := hbc
    cases hto : msg.«to» with
    | none => exact absurd hto hnone
    | some t =>
      have ht : t ≠ "" := by
        intro he
        rw [he] at hto
        exact hempty hto
      cases hfind : bus.agents.find? (fun b => b.name == t) with
      | none =>
        refine ⟨[], ?_, ?_⟩
        · simp [MessageBus.send, hto, ht, hfind]
        · intro res h
          simp only [MessageBus.send, hto] at h
          rw [if_neg ht] at h
          simp only [hfind] at h
          exact Except.ok.inj h
      | some a =>
        have hsend := send_direct_eq bus msg t a hto ht hfind
        cases hp : (a.receive msg).2 with
        | error e =>
          rw [hp] at hsend
          refine ⟨[], by rw [hsend]; simp, ?_⟩
          intro res h
          rw [hsend] at h
          cases h
        | ok r =>
          cases r with
          | none =>
            rw [hp] at hsend
            refine ⟨[], by rw [hsend]; simp, ?_⟩
            intro res h
            rw [hsend] at h
            exact Except.ok.inj h
          | some m =>
            rw [hp] at hsend
            refine ⟨[m], by rw [hsend], ?_⟩
            intro res h
            rw [hsend] at h
            exact Except.ok.inj h

/-- C3 counterexample: two `send` calls whose envelopes share the id
`"x"` but differ in `content` both get appended to the log — the dedup
check is Python `==` over all fields, not id identity — so the log ends
with two entries of the same id, refuting "no two entries of the log share
an id". -/
theorem log_dedup_by_id_cex :
    ((MessageBus.empty.send ⟨"U", .str "a", "user", none, "x", "t"⟩).1.send
        ⟨"U", .str "b", "user", none, "x", "t"⟩).1.messages =
      [⟨"U", .str "a", "user", none, "x", "t"⟩, ⟨"U", .str "b", "user", none, "x", "t"⟩] ∧
    (⟨"U", .str "a", "user", none, "x", "t"⟩ : Msg).id =
      (⟨"U", .str "b", "user", none, "x", "t"⟩ : Msg).id ∧
    (⟨"U", .str "a", "user", none, "x", "t"⟩ : Msg) ≠
      ⟨"U", .str "b", "user", none, "x", "t"⟩ := by
  refine ⟨rfl, rfl, by decide⟩

/-- C3 amended: the log is append-only; each `send` appends the sent
envelope exactly when no structurally equal envelope (compared on all
fields, not by id alone) is already present, and then appends the
generated responses unconditionally — on a successful send the appended
suffix is exactly the returned response list. -/
theorem send_log_append_structure (bus : MessageBus) (msg : Msg) :
    ∃ rs : List Msg,
      (bus.send msg).1.messages = MessageBus.logIfAbsent bus.messages msg ++ rs ∧
      (∀ res, (bus.send msg).2 = Except.ok res → rs = res) :=
  send_log_structure_aux bus msg

/-- C3 amended witness: a concrete send on the empty bus appends the sent
envelope and nothing else. -/
theorem send_log_append_structure_witness :
    (MessageBus.empty.send ⟨"U", .str "a", "user", none, "x", "t"⟩).1.messages =
      MessageBus.logIfAbsent [] ⟨"U", .str "a", "user", none, "x", "t"⟩ ++ [] := by
  obtain ⟨rs, h1, h2⟩ :=
    send_log_append_structure MessageBus.empty ⟨"U", .str "a", "user", none, "x", "t"⟩
  have hrs : rs = [] := h2 [] rfl
  rw [hrs] at h1
  exact h1

lemma broadcast_all_ok (msg : Msg) (agents : List Agent)
    (hok : ∀ a ∈ agents, a.name ≠ msg.name →
      ∃ r, a.process (a.memory ++ [msg]) msg = Except.ok r) :
    MessageBus.broadcast msg agents =
      (agents.map (fun a => if a.name = msg.name then a else { a with memory := a.memory ++ [msg] }),
       agents.filterMap (fun a =>
         if a.name = msg.name then none
         else match a.process (a.memory ++ [msg]) msg with
              | .ok r => r
              | .error _ => none),
       none) := by
  induction agents with
  | nil => rfl
  | cons a rest ih =>
    have ihr := ih (fun b hb hbne => hok b (List.mem_cons_of_mem _ hb) hbne)
    by_cases hname : a.name = msg.name
    · simp [MessageBus.broadcast, hname, ihr]
    · obtain ⟨r, hr⟩ := hok a (List.mem_cons_self _ _) hname
      have hbeq : (a.name == msg.name) = false := by simpa using hname
      cases r with
      | none =>
        simp [MessageBus.broadcast, hbeq, hname, Agent.receive, hr, ihr]
      | some m =>
        simp [MessageBus.broadcast, hbeq, hname, Agent.receive, hr, ihr]

/-- C6: a broadcast (no specific recipient) on a bus whose non-sender
participants' computations all succeed is delivered exactly once to each
registered participant except the one whose registry key equals the
envelope's sender — the sender's state is untouched — visiting the
registry in insertion order; the returned (and logged) response list holds
each produced response in that visit order. -/
theorem broadcast_excludes_sender_delivers_once (bus : MessageBus) (msg : Msg)
    (hto : msg.«to» = none)
    (hok : ∀ a ∈ bus.agents, a.name ≠ msg.name →
      ∃ r, a.process (a.memory ++ [msg]) msg = Except.ok r) :
    bus.send msg =
      ({ messages := MessageBus.logIfAbsent bus.messages msg ++
           bus.agents.filterMap (fun a =>
             if a.name = msg.name then none
             else match a.process (a.memory ++ [msg]) msg with
                  | .ok r => r
                  | .error _ => none),
         agents := bus.agents.map (fun a =>
           if a.name = msg.name then a else { a with memory := a.memory ++ [msg] }) },
       Except.ok (bus.agents.filterMap (fun a =>
         if a.name = msg.name then none
         else match a.process (a.memory ++ [msg]) msg with
              | .ok r => r
              | .error _ => none))) := by
  have hbr := broadcast_all_ok msg bus.agents hok
  rw [send_bcast_eq bus msg (Or.inl hto), hbr]

/-- C6 witness: `A` broadcasts to a bus with `A`, `B`, `C`; `B` and `C`
each receive exactly once, `A` does not receive its own broadcast, and the
response list is `B`'s response. -/
theorem broadcast_excludes_sender_delivers_once_witness :
    (MessageBus.send
      ⟨[], [⟨"A", [], fun _ _ => Except.ok none⟩,
            ⟨"B", [], fun _ _ =>
              Except.ok (some ⟨"B", .str "pong", "assistant", some "A", "rb", "t"⟩)⟩,
            ⟨"C", [], fun _ _ => Except.ok none⟩]⟩
      ⟨"A", .str "ping", "assistant", none, "mb", "t"⟩).2 =
        Except.ok [⟨"B", .str "pong", "assistant", some "A", "rb", "t"⟩] ∧
    ((MessageBus.send
      ⟨[], [⟨"A", [], fun _ _ => Except.ok none⟩,
            ⟨"B", [], fun _ _ =>
              Except.ok (some ⟨"B", .str "pong", "assistant", some "A", "rb", "t"⟩)⟩,
            ⟨"C", [], fun _ _ => Except.ok none⟩]⟩
      ⟨"A", .str "ping", "assistant", none, "mb", "t"⟩).1.agents.map Agent.memory) =
        [[], [⟨"A", .str "ping", "assistant", none, "mb", "t"⟩],
         [⟨"A", .str "ping", "assistant", none, "mb", "t"⟩]] := by
  have h := broadcast_excludes_sender_delivers_once
    ⟨[], [⟨"A", [], fun _ _ => Except.ok none⟩,
          ⟨"B", [], fun _ _ =>
            Except.ok (some ⟨"B", .str "pong", "assistant", some "A", "rb", "t"⟩)⟩,
          ⟨"C", [], fun _ _ => Except.ok none⟩]⟩
    ⟨"A", .str "ping", "assistant", none, "mb", "t"⟩ rfl
    (by
      intro a ha hne
      simp only [List.mem_cons, List.not_mem_nil, or_false] at ha
      rcases ha with rfl | rfl | rfl
      · exact absurd rfl hne
      · exact ⟨some ⟨"B", .str "pong", "assistant", some "A", "rb", "t"⟩, rfl⟩
      · exact ⟨none, rfl⟩)
  rw [h]
  exact ⟨rfl, rfl⟩

lemma logIfAbsent_extends (messages : List Msg) (msg : Msg) :
    messages <+: MessageBus.logIfAbsent messages msg := by
  unfold MessageBus.logIfAbsent
  split
  · exact List.prefix_refl _
  · exact ⟨[msg], rfl⟩

lemma mem_logIfAbsent_self (messages : List Msg) (msg : Msg) :
    msg ∈ MessageBus.logIfAbsent messages msg := by
  unfold MessageBus.logIfAbsent
  split
  · assumption
  · exact List.mem_append_right _ (List.mem_singleton.mpr rfl)

lemma broadcast_agents_shape (msg : Msg) (agents : List Agent) :
    ∀ a' ∈ (MessageBus.broadcast msg agents).1,
      ∃ a ∈ agents, a' = a ∨ a' = { a with memory := a.memory ++ [msg] } := by
  induction agents with
  | nil => intro a' ha'; simp [MessageBus.broadcast] at ha'
  | cons a rest ih =>
    intro a' ha'
    rcases hbr : MessageBus.broadcast msg rest with ⟨rest', rs, err⟩
    by_cases hname : (a.name == msg.name) = true
    · simp [MessageBus.broadcast, hname, hbr] at ha'
      rcases ha' with rfl | hmem
      · exact ⟨a', List.mem_cons_self _ _, Or.inl rfl⟩
      · obtain ⟨b, hb, hcase⟩ := ih a' (by rw [hbr]; exact hmem)
        exact ⟨b, List.mem_cons_of_mem _ hb, hcase⟩
    · cases hp : a.process (a.memory ++ [msg]) msg with
      | error e =>
        simp [MessageBus.broadcast, Agent.receive, hname, hp] at ha'
        rcases ha' with rfl | hmem
        · exact ⟨a, List.mem_cons_self _ _, Or.inr rfl⟩
        · exact ⟨a', List.mem_cons_of_mem _ hmem, Or.inl rfl⟩
      | ok r =>
        cases r with
        | none =>
          simp [MessageBus.broadcast, Agent.receive, hname, hp, hbr] at ha'
          rcases ha' with rfl | hmem
          · exact ⟨a, List.mem_cons_self _ _, Or.inr rfl⟩
          · obtain ⟨b, hb, hcase⟩ := ih a' (by rw [hbr]; exact hmem)
            exact ⟨b, List.mem_cons_of_mem _ hb, hcase⟩
        | some m =>
          simp [MessageBus.broadcast, Agent.receive, hname, hp, hbr] at ha'
          rcases ha' with rfl | hmem
          · exact ⟨a, List.mem_cons_self _ _, Or.inr rfl⟩
          · obtain ⟨b, hb, hcase⟩ := ih a' (by rw [hbr]; exact hmem)
            exact ⟨b, List.mem_cons_of_mem _ hb, hcase⟩

lemma send_agents_shape (bus : MessageBus) (msg : Msg) :
    ∀ a' ∈ (bus.send msg).1.agents,
      ∃ a ∈ bus.agents, a' = a ∨ a' = { a with memory := a.memory ++ [msg] } := by
  intro a' ha'
  by_cases hbc : msg.«to» = none ∨ msg.«to» = some ""
  · rcases hbr : MessageBus.broadcast msg bus.agents with ⟨agents', rs, err⟩
    have hsend := send_bcast_eq bus msg hbc
    rw [hbr] at hsend
    rw [hsend] at ha'
    exact broadcast_agents_shape msg bus.agents a' (by rw [hbr]; exact ha')
  · push_neg at hbc
    obtain ⟨hnone, hempty⟩ := hbc
    cases hto : msg.«to» with
    | none => exact absurd hto hnone
    | some t =>
      have ht : t ≠ "" := by
        intro he
        rw [he] at hto
        exact hempty hto
      cases hfind : bus.agents.find? (fun b => b.name == t) with
      | none =>
        simp only [MessageBus.send, hto] at ha'
        rw [if_neg ht] at ha'
        simp only [hfind] at ha'
        exact ⟨a', ha', Or.inl rfl⟩
      | some a0 =>
        have ha0 : a0 ∈ bus.agents := List.mem_of_find?_eq_some hfind
        have hsend := send_direct_eq bus msg t a0 hto ht hfind
        have hagents : (bus.send msg).1.agents =
            bus.agents.map (fun b => if b.name == t then (a0.receive msg).1 else b) := by
          rw [hsend]
          cases hp : (a0.receive msg).2 <;> simp [hp]
          case ok r => cases r <;> simp
        rw [hagents] at ha'
        obtain ⟨b, hb, hbeq⟩ := List.mem_map.mp ha'
        by_cases hbt : (b.name == t) = true
        · rw [if_pos hbt] at hbeq
          exact ⟨a0, ha0, Or.inr (by rw [← hbeq]; rfl)⟩
        · rw [if_neg hbt] at hbeq
          exact ⟨b, hb, Or.inl hbeq.symm⟩

lemma histInLog_send (bus : MessageBus) (msg : Msg) (h : histInLog bus) :
    histInLog (bus.send msg).1 := by
  intro a' ha' m hm
  obtain ⟨rs, hmsgs, _⟩ := send_log_structure_aux bus msg
  rw [hmsgs]
  apply List.mem_append_left
  obtain ⟨a, ha, hcase⟩ := send_agents_shape bus msg a' ha'
  rcases hcase with he | he
  · rw [he] at hm
    exact (logIfAbsent_extends bus.messages msg).subset (h a ha m hm)
  · have hm2 : m ∈ a.memory ++ [msg] := by rw [he] at hm; exact hm
    rcases List.mem_append.mp hm2 with hold | hnew
    · exact (logIfAbsent_extends bus.messages msg).subset (h a ha m hold)
    · rw [List.mem_singleton.mp hnew]
      exact mem_logIfAbsent_self bus.messages msg

lemma histInLog_register (bus : MessageBus) (n : String)
    (p : List Msg → Msg → Except String (Option Msg)) (h : histInLog bus) :
    histInLog (bus.register ⟨n, [], p⟩) := by
  intro a' ha' m hm
  have hmsg : (bus.register ⟨n, [], p⟩).messages = bus.messages := by
    unfold MessageBus.register
    split <;> rfl
  rw [hmsg]
  unfold MessageBus.register at ha'
  split at ha'
  · obtain ⟨b, hb, hbeq⟩ := List.mem_map.mp ha'
    by_cases hbn : (b.name == n) = true
    · rw [if_pos hbn] at hbeq
      rw [← hbeq] at hm
      simp at hm
    · rw [if_neg hbn] at hbeq
      exact h b hb m (hbeq ▸ hm)
  · rcases List.mem_append.mp ha' with hold | hnew
    · exact h a' hold m hm
    · rw [List.mem_singleton.mp hnew] at hm
      simp at hm

/-- C4 amended: starting from an empty bus, after any sequence of Router
operations (registrations of freshly constructed participants and sends,
including broadcasts), every envelope present in any registered
participant's history is also present in the Router's log.  (The companion
counterexample shows the further "order-preserving subsequence" part of
the original claim fails.) -/
theorem history_contained_in_log (ops : List BusOp) :
    histInLog (MessageBus.runOps MessageBus.empty ops) := by
  suffices h : ∀ (l : List BusOp) (bus : MessageBus),
      histInLog bus → histInLog (MessageBus.runOps bus l) by
    refine h ops MessageBus.empty ?_
    intro a ha
    simp [MessageBus.empty] at ha
  intro l
  induction l with
  | nil => intro bus h; exact h
  | cons op rest ih =>
    intro bus h
    have hstep : MessageBus.runOps bus (op :: rest) =
        MessageBus.runOps (BusOp.apply bus op) rest := rfl
    rw [hstep]
    apply ih
    cases op with
    | register n p => exact histInLog_register bus n p h
    | send m => exact histInLog_send bus m h

/-- C4 witness: a registered agent's recorded envelope is in the log after
a register-then-send run. -/
theorem history_contained_in_log_witness :
    (⟨"U", .str "hi", "user", some "A", "w", "t"⟩ : Msg) ∈
      (MessageBus.runOps MessageBus.empty
        [.register "A" (fun _ _ => Except.ok none),
         .send ⟨"U", .str "hi", "user", some "A", "w", "t"⟩]).messages := by
  exact history_contained_in_log
    [.register "A" (fun _ _ => Except.ok none),
     .send ⟨"U", .str "hi", "user", some "A", "w", "t"⟩]
    ⟨"A", [⟨"U", .str "hi", "user", some "A", "w", "t"⟩], fun _ _ => Except.ok none⟩
    (List.mem_singleton.mpr rfl)
    ⟨"U", .str "hi", "user", some "A", "w", "t"⟩
    (List.mem_singleton.mpr rfl)

/-- C4 counterexample (to the subsequence part of the original claim): `B`
answers the first send with a response `x` addressed to `A` (logged as a
response), then `A` receives `m1`, then the orchestrator re-sends the
logged `x` to `A` — the log dedup keeps `x` at its old position, so `A`'s
history `[m1, x]` is not an order-preserving subsequence of the log
`[m0, x, m1]`, although every entry of it is in the log. -/
theorem history_sublist_of_log_cex :
    ((MessageBus.runOps MessageBus.empty
        [.register "A" (fun _ _ => Except.ok none),
         .register "B" (fun _ _ =>
           Except.ok (some ⟨"B", .str "resp", "assistant", some "A", "x", "t"⟩)),
         .send ⟨"U", .str "q0", "user", some "B", "m0", "t"⟩,
         .send ⟨"U", .str "q1", "user", some "A", "m1", "t"⟩,
         .send ⟨"B", .str "resp", "assistant", some "A", "x", "t"⟩]).agents.map
       Agent.memory) =
      [[⟨"U", .str "q1", "user", some "A", "m1", "t"⟩,
        ⟨"B", .str "resp", "assistant", some "A", "x", "t"⟩],
       [⟨"U", .str "q0", "user", some "B", "m0", "t"⟩]] ∧
    (MessageBus.runOps MessageBus.empty
        [.register "A" (fun _ _ => Except.ok none),
         .register "B" (fun _ _ =>
           Except.ok (some ⟨"B", .str "resp", "assistant", some "A", "x", "t"⟩)),
         .send ⟨"U", .str "q0", "user", some "B", "m0", "t"⟩,
         .send ⟨"U", .str "q1", "user", some "A", "m1", "t"⟩,
         .send ⟨"B", .str "resp", "assistant", some "A", "x", "t"⟩]).messages =
      [⟨"U", .str "q0", "user", some "B", "m0", "t"⟩,
       ⟨"B", .str "resp", "assistant", some "A", "x", "t"⟩,
       ⟨"U", .str "q1", "user", some "A", "m1", "t"⟩] ∧
    ¬ List.Sublist
        ([⟨"U", .str "q1", "user", some "A", "m1", "t"⟩,
          ⟨"B", .str "resp", "assistant", some "A", "x", "t"⟩] : List Msg)
        ([⟨"U", .str "q0", "user", some "B", "m0", "t"⟩,
          ⟨"B", .str "resp", "assistant", some "A", "x", "t"⟩,
          ⟨"U", .str "q1", "user", some "A", "m1", "t"⟩] : List Msg) := by
  refine ⟨rfl, rfl, by decide⟩

lemma pyGet?_mem_values {V : Type} :
    ∀ (l : List (String × V)) (k : String) (v : V),
      pyGet? l k = some v → v ∈ l.map Prod.snd := by
  intro l
  induction l with
  | nil => intro k v h; simp [pyGet?] at h
  | cons p rest ih =>
    intro k v h
    rw [pyGet?] at h
    by_cases hk : (p.1 == k) = true
    · rw [if_pos hk] at h
      injection h with h
      simp [h]
    · rw [if_neg hk] at h
      simp [ih k v h]

lemma nextNode_edgeSucc {V : Type} (g : MockCompiledGraph V)
    (state : List (String × V)) (s t : String)
    (h : g.nextNode state s = some t) : edgeSucc g s t := by
  unfold MockCompiledGraph.nextNode at h
  cases hc : pyGet? g.conditional_edges s with
  | some rm =>
    rw [hc] at h
    exact Or.inr ⟨rm, hc, pyGet?_mem_values _ _ _ h⟩
  | none =>
    rw [hc] at h
    cases he : pyGet? g.edges s with
    | some e =>
      rw [he] at h
      cases e with
      | some e' =>
        injection h with h
        exact Or.inl (by rw [← h]; exact he)
      | none => cases h
    | none => rw [he] at h; cases h

lemma invokeAux_terminates_measure {V : Type} (g : MockCompiledGraph V)
    (hacyc : AcyclicEdges g) :
    ∀ (fuel : Nat) (avail : List String) (state : List (String × V)) (cur : Option String),
      avail.Nodup →
      (∀ s, cur = some s → s ≠ "" →
        ∀ u, Relation.ReflTransGen (edgeSucc g) s u → u ∈ avail) →
      avail.length ≤ fuel →
      (g.invokeAux fuel state cur).isSome := by
  intro fuel
  induction fuel with
  | zero =>
    intro avail state cur hnd hreach hlen
    cases cur with
    | none => simp [MockCompiledGraph.invokeAux]
    | some s =>
      by_cases hs : s = ""
      · simp [MockCompiledGraph.invokeAux, hs]
      · exfalso
        have hmem : s ∈ avail := hreach s rfl hs s Relation.ReflTransGen.refl
        have hz : avail = [] := List.eq_nil_of_length_eq_zero (Nat.le_zero.mp hlen)
        rw [hz] at hmem
        exact List.not_mem_nil _ hmem
  | succ fuel ih =>
    intro avail state cur hnd hreach hlen
    cases cur with
    | none => simp [MockCompiledGraph.invokeAux]
    | some s =>
      by_cases hs : s = ""
      · simp [MockCompiledGraph.invokeAux, hs]
      · have hstep : g.invokeAux (fuel + 1) state (some s) =
            g.invokeAux fuel (g.stepState state s) (g.nextNode (g.stepState state s) s) := by
          simp [MockCompiledGraph.invokeAux, hs]
        rw [hstep]
        have hsm : s ∈ avail := hreach s rfl hs s Relation.ReflTransGen.refl
        cases hnx : g.nextNode (g.stepState state s) s with
        | none => simp [MockCompiledGraph.invokeAux]
        | some t =>
          apply ih (avail.erase s)
          · exact hnd.erase _
          · intro s' hs' hne u hu
            injection hs' with hs'
            have hsucc : edgeSucc g s s' := by
              rw [← hs']
              exact nextNode_edgeSucc g _ s t hnx
            have hsu : Relation.ReflTransGen (edgeSucc g) s u :=
              Relation.ReflTransGen.head hsucc hu
            have hu_av : u ∈ avail := hreach s rfl hs u hsu
            have hus : u ≠ s := by
              intro he
              rw [he] at hu
              exact hacyc s (Relation.TransGen.head' hsucc hu)
            exact (List.mem_erase_of_ne hus).mpr hu_av
          · have hlen' : (avail.erase s).length = avail.length - 1 :=
              List.length_erase_of_mem hsm
            have hpos : 1 ≤ avail.length := List.length_pos.mpr (by
              intro he; rw [he] at hsm; exact List.not_mem_nil _ hsm)
            omega

/-- C8: for an acyclic edge configuration (no step name reachable from
itself through fixed or conditional edge references) whose referenced
successors and entry point exist among the (uniquely named) steps, `invoke`
reaches a terminal step within `|steps|` loop iterations and returns the
final context. -/
theorem acyclic_graph_invoke_terminates {V : Type} (g : MockCompiledGraph V)
    (initial : List (String × V))
    (hnd : (g.nodes.map Prod.fst).Nodup)
    (hentry : g.entry_point ∈ g.nodes.map Prod.fst)
    (hclosed : EdgesClosed g)
    (hacyc : AcyclicEdges g) :
    ∃ final, g.invoke g.nodes.length initial = some final := by
  have hinv : ∀ s, (some g.entry_point : Option String) = some s → s ≠ "" →
      ∀ u, Relation.ReflTransGen (edgeSucc g) s u → u ∈ g.nodes.map Prod.fst := by
    intro s hs _ u hu
    injection hs with hs
    subst hs
    induction hu with
    | refl => exact hentry
    | tail _ hstep ihm => exact hclosed _ _ hstep
  have h := invokeAux_terminates_measure g hacyc g.nodes.length (g.nodes.map Prod.fst)
    initial (some g.entry_point) hnd hinv (by simp)
  exact Option.isSome_iff_exists.mp h

/-- C8 witness: a one-step terminal graph satisfies the hypotheses and
`invoke` terminates in one iteration. -/
theorem acyclic_graph_invoke_terminates_witness :
    ∃ final, MockCompiledGraph.invoke (V := Nat)
      { nodes := [("a", fun _ => [])],
        edges := [("a", none)],
        conditional_edges := [],
        entry_point := "a" } 1 [] = some final := by
  have hnosucc : ∀ x y, ¬ edgeSucc (V := Nat)
      { nodes := [("a", fun _ => [])],
        edges := [("a", none)],
        conditional_edges := [],
        entry_point := "a" } x y := by
    intro x y h
    rcases h with h | ⟨rm, hrm, _⟩
    · rw [pyGet?] at h
      by_cases hx : (("a" : String) == x) = true
      · rw [if_pos hx] at h; cases h
      · rw [if_neg hx] at h; rw [pyGet?] at h; cases h
    · rw [pyGet?] at hrm; cases hrm
  have h := acyclic_graph_invoke_terminates (V := Nat)
    { nodes := [("a", fun _ => [])],
      edges := [("a", none)],
      conditional_edges := [],
      entry_point := "a" } []
    (by simp)
    (by simp)
    (by intro a b hab; exact absurd hab (hnosucc a b))
    (by
      intro a hcyc
      have hgen : ∀ p q, Relation.TransGen (edgeSucc (V := Nat)
          { nodes := [("a", fun _ => [])],
            edges := [("a", none)],
            conditional_edges := [],
            entry_point := "a" }) p q → False := by
        intro p q hpq
        induction hpq with
        | single hstep => exact hnosucc _ _ hstep
        | tail _ hstep _ => exact hnosucc _ _ hstep
      exact hgen a a hcyc)
  simpa using h

lemma pyGet?_mem_pair {V : Type} :
    ∀ (l : List (String × V)) (k : String) (v : V),
      pyGet? l k = some v → ∃ p ∈ l, p.2 = v := by
  intro l
  induction l with
  | nil => intro k v h; simp [pyGet?] at h
  | cons p rest ih =>
    intro k v h
    rw [pyGet?] at h
    by_cases hk : (p.1 == k) = true
    · rw [if_pos hk] at h
      injection h with h
      exact ⟨p, List.mem_cons_self _ _, h⟩
    · rw [if_neg hk] at h
      obtain ⟨q, hq, hqv⟩ := ih k v h
      exact ⟨q, List.mem_cons_of_mem _ hq, hqv⟩

lemma stepStateH_heap_extends (g : HGraph) (hnodes : ∀ nf ∈ g.nodes, allocOnly nf.2)
    (h : Heap) (st : List (String × PyVal)) (cur : String) :
    h <+: (g.stepStateH h st cur).1 := by
  unfold HGraph.stepStateH
  cases hf : pyGet? g.nodes cur with
  | none => exact List.prefix_refl _
  | some f =>
    obtain ⟨p, hp, hpv⟩ := pyGet?_mem_pair g.nodes cur f hf
    have halloc := hnodes p hp
    rw [hpv] at halloc
    exact halloc h st

lemma invokeAuxH_heap_extends (g : HGraph) (hnodes : ∀ nf ∈ g.nodes, allocOnly nf.2) :
    ∀ (fuel : Nat) (h : Heap) (st : List (String × PyVal)) (cur : Option String)
      (h' : Heap) (st' : List (String × PyVal)),
      g.invokeAuxH fuel h st cur = some (h', st') → h <+: h' := by
  intro fuel
  induction fuel with
  | zero =>
    intro h st cur h' st' heq
    cases cur with
    | none =>
      simp only [HGraph.invokeAuxH, Option.some.injEq, Prod.mk.injEq] at heq
      exact heq.1 ▸ List.prefix_refl _
    | some s =>
      by_cases hs : s = ""
      · simp only [HGraph.invokeAuxH, hs, if_pos, Option.some.injEq, Prod.mk.injEq] at heq
        exact heq.1 ▸ List.prefix_refl _
      · simp [HGraph.invokeAuxH, hs] at heq
  | succ fuel ih =>
    intro h st cur h' st' heq
    cases cur with
    | none =>
      simp only [HGraph.invokeAuxH, Option.some.injEq, Prod.mk.injEq] at heq
      exact heq.1 ▸ List.prefix_refl _
    | some s =>
      by_cases hs : s = ""
      · simp only [HGraph.invokeAuxH, hs, if_pos, Option.some.injEq, Prod.mk.injEq] at heq
        exact heq.1 ▸ List.prefix_refl _
      · simp only [HGraph.invokeAuxH, hs, if_neg, if_false] at heq
        have h1 := stepStateH_heap_extends g hnodes h st s
        exact h1.trans (ih _ _ _ _ _ heq)

lemma valueOf_mono (h h' : Heap) (hp : h <+: h') (v : PyVal) (w : String ⊕ List String)
    (hv : valueOf h v = some w) : valueOf h' v = some w := by
  cases v with
  | str s => exact hv
  | ref i =>
    simp only [valueOf] at hv ⊢
    obtain ⟨cell, hc, hw⟩ := Option.map_eq_some'.mp hv
    obtain ⟨t, rfl⟩ := hp
    obtain ⟨hlt, _⟩ := List.get?_eq_some.mp hc
    have hcc : (h ++ t).get? i = some cell := by
      rw [List.get?_append hlt]
      exact hc
    rw [hcc]
    simp [hw]

/-- C10: `invoke` computes the final context on a copy of the caller's
mapping: since every node of the program only allocates new list objects
(never writing an existing cell), a terminating run extends the heap
without touching any prior cell, so after the call every top-level field
of the caller's initial mapping — including the `execution_log` list its
reference denotes — still has the value it had before the call. -/
theorem invoke_preserves_caller_initial_state (g : HGraph) (fuel : Nat)
    (h : Heap) (initial : List (String × PyVal))
    (h' : Heap) (final : List (String × PyVal))
    (hnodes : ∀ nf ∈ g.nodes, allocOnly nf.2)
    (hrun : g.invokeH fuel h initial = some (h', final)) :
    h <+: h' ∧
    ∀ kv ∈ initial, ∀ w, valueOf h kv.2 = some w → valueOf h' kv.2 = some w := by
  have hp := invokeAuxH_heap_extends g hnodes fuel h initial (some g.entry_point) h' final hrun
  exact ⟨hp, fun kv _ w hw => valueOf_mono h h' hp kv.2 w hw⟩

/-- C10 witness: a node that allocates a fresh log cell and rebinds the
`execution_log` field leaves the caller's original cell — and hence the
caller's field value — intact. -/
theorem invoke_preserves_caller_initial_state_witness :
    ([["orig"]] : Heap) <+: ([["orig"], ["L"]] : Heap) ∧
    valueOf [["orig"], ["L"]] (PyVal.ref 0) = some (Sum.inr ["orig"]) := by
  have h := invoke_preserves_caller_initial_state
    { nodes := [("a", fun hp _ => (hp ++ [["L"]], [("execution_log", PyVal.ref hp.length)]))],
      edges := [("a", none)],
      conditional_edges := [],
      entry_point := "a" }
    1 [["orig"]] [("execution_log", PyVal.ref 0)]
    [["orig"], ["L"]] [("execution_log", PyVal.ref 1)]
    (by
      intro nf hnf
      rw [List.mem_singleton.mp hnf]
      intro hp st
      exact ⟨[["L"]], rfl⟩)
    rfl
  exact ⟨h.1, h.2 ("execution_log", PyVal.ref 0) (List.mem_singleton.mpr rfl)
    (Sum.inr ["orig"]) rfl⟩
